import Mathlib

/-!
Verification of the chart wrapper in
`src/packages/charts/src/baseUtils/chart/index.ts`:
the deep-merge helpers `mergeConfig` / `formatMergeConfig` and the
`SingleChartHOC` registry with its `render` operation.

Configuration and data values are modelled by a JSON-like value type
`JVal` (numbers as `Int`).  JavaScript object field order is observable
(`Object.assign` preserves it), so records are association lists.
-/

/-- JSON-like runtime value: the shape of `data` and config values the
chart wrapper manipulates. -/
inductive JVal where
  | null
  | bool (b : Bool)
  | num (n : Int)
  | str (s : String)
  | arr (elems : List JVal)
  | obj (fields : List (String × JVal))

/-- First-match field lookup in an association list, i.e. JavaScript
property access on a plain object. -/
def lookupField : List (String × JVal) → String → Option JVal
  | [], _ => none
  | (k, v) :: fs, key => if k == key then some v else lookupField fs key

theorem lookupField_mem {fs : List (String × JVal)} {key : String} {v : JVal}
    (h : lookupField fs key = some v) : (key, v) ∈ fs := by
  induction fs with
  | nil => simp [lookupField] at h
  | cons kv rest ih =>
    obtain ⟨k, w⟩ := kv
    rw [lookupField] at h
    by_cases hk : k == key
    · rw [if_pos hk] at h
      obtain rfl : w = v := by injection h
      obtain rfl : k = key := eq_of_beq hk
      exact List.mem_cons_self _ _
    · rw [if_neg hk] at h
      exact List.mem_cons_of_mem _ (ih h)

theorem sizeOf_lt_of_mem_pairs {fs : List (String × JVal)} {k : String} {v : JVal}
    (h : (k, v) ∈ fs) : sizeOf v < sizeOf fs := by
  induction fs with
  | nil => simp at h
  | cons kv rest ih =>
    rcases List.mem_cons.mp h with heq | hmem
    · subst heq
      simp only [List.cons.sizeOf_spec, Prod.mk.sizeOf_spec]
      omega
    · have := ih hmem
      simp only [List.cons.sizeOf_spec]
      omega

theorem lookupField_sizeOf_lt {fs : List (String × JVal)} {key : String} {v : JVal}
    (h : lookupField fs key = some v) : sizeOf v < sizeOf fs :=
  sizeOf_lt_of_mem_pairs (lookupField_mem h)

mutual

/-- lodash `isEqual` on `JVal`: recursive deep equality; arrays compare
positionally, objects compare by key set regardless of field order. -/
def isEqual : JVal → JVal → Bool
  | .null, .null => true
  | .bool a, .bool b => a == b
  | .num a, .num b => a == b
  | .str a, .str b => a == b
  | .arr xs, .arr ys => isEqualList xs ys
  | .obj fs, .obj gs => fs.length == gs.length && isEqualSub fs gs
  | _, _ => false
termination_by a b => sizeOf a + sizeOf b

/-- Positional deep equality of two value lists. -/
def isEqualList : List JVal → List JVal → Bool
  | [], [] => true
  | x :: xs, y :: ys => isEqual x y && isEqualList xs ys
  | _, _ => false
termination_by xs ys => sizeOf xs + sizeOf ys

/-- Every field of `fs` is present in `gs` with a deeply equal value. -/
def isEqualSub : List (String × JVal) → List (String × JVal) → Bool
  | [], _ => true
  | (k, v) :: fs, gs =>
      (match h : lookupField gs k with
       | some w => isEqual v w
       | none => false) && isEqualSub fs gs
termination_by fs gs => sizeOf fs + sizeOf gs
decreasing_by
  · simp only [List.cons.sizeOf_spec, Prod.mk.sizeOf_spec]
    have := lookupField_sizeOf_lt h
    omega
  · simp only [List.cons.sizeOf_spec]
    omega

end

/-- JavaScript truthiness of a `JVal` (`undefined` is handled at the
`Option` layer by `truthyOpt`). -/
def truthy : JVal → Bool
  | .null => false
  | .bool b => b
  | .num n => n != 0
  | .str s => s != ""
  | .arr _ => true
  | .obj _ => true

/-- Truthiness of a possibly-absent value; an absent property
(JavaScript `undefined`) is falsy. -/
def truthyOpt : Option JVal → Bool
  | some v => truthy v
  | none => false

/-- `typeof v === 'object' && !Array.isArray(v)` restricted to the
values representable in `JVal` that are also truthy-compatible records
(`null` is excluded by the separate truthiness conjunct in the code). -/
def isRecord : JVal → Bool
  | .obj _ => true
  | _ => false

/-- String-indexed pairs `("0", x0), ("1", x1), ...` starting at `start`:
the own enumerable properties contributed by array (and string) indices. -/
def idxPairs (start : Nat) : List JVal → List (String × JVal)
  | [] => []
  | x :: xs => (toString start, x) :: idxPairs (start + 1) xs

/-- Own enumerable string-keyed properties of a value, in JavaScript
enumeration order: object fields, array elements under index keys,
string characters under index keys; primitives have none. -/
def ownEnum : JVal → List (String × JVal)
  | .obj fs => fs
  | .arr xs => idxPairs 0 xs
  | .str s => idxPairs 0 (s.toList.map fun c => JVal.str (String.singleton c))
  | _ => []

/-- JavaScript string-keyed property read `v[key]`, `none` for
`undefined`. -/
def jsGet (v : JVal) (key : String) : Option JVal :=
  lookupField (ownEnum v) key

/-- `Object.assign` on field lists: `extra` overlays `base`; keys of
`base` keep their position (with `extra`'s value when present there),
keys only in `extra` are appended in order. -/
def assignFields (base extra : List (String × JVal)) : List (String × JVal) :=
  base.map (fun kv => (kv.1, (lookupField extra kv.1).getD kv.2)) ++
    extra.filter (fun kv => (lookupField base kv.1).isNone)

theorem idxPairs_mem {start : Nat} {xs : List JVal} {k : String} {v : JVal}
    (h : (k, v) ∈ idxPairs start xs) : v ∈ xs := by
  induction xs generalizing start with
  | nil => simp [idxPairs] at h
  | cons x rest ih =>
    rw [idxPairs] at h
    rcases List.mem_cons.mp h with heq | hmem
    · injection heq with h1 h2
      exact h2 ▸ List.mem_cons_self _ _
    · exact List.mem_cons_of_mem _ (ih hmem)

/-- A record-valued own property is a strict structural subvalue; string
indexing never yields a record, so the guard makes this total. -/
theorem jsGet_record_sizeOf_lt {v w : JVal} {key : String}
    (h : jsGet v key = some w) (hrec : isRecord w = true) :
    sizeOf w < sizeOf v := by
  cases v with
  | obj fs =>
    have := lookupField_sizeOf_lt (show lookupField fs key = some w from h)
    simp only [JVal.obj.sizeOf_spec]
    omega
  | arr xs =>
    have hm : (key, w) ∈ idxPairs 0 xs := lookupField_mem h
    have hw : w ∈ xs := idxPairs_mem hm
    have := List.sizeOf_lt_of_mem hw
    simp only [JVal.arr.sizeOf_spec]
    omega
  | str s =>
    have hm : (key, w) ∈ idxPairs 0 (s.toList.map fun c => JVal.str (String.singleton c)) :=
      lookupField_mem h
    have hw := idxPairs_mem hm
    rcases List.mem_map.mp hw with ⟨c, _, hc⟩
    rw [← hc] at hrec
    simp [isRecord] at hrec
  | null => simp [jsGet, ownEnum, lookupField] at h
  | bool b => simp [jsGet, ownEnum, lookupField] at h
  | num n => simp [jsGet, ownEnum, lookupField] at h

mutual

/-- Embeds `mergeConfig`: `Object.assign({}, originConfig, targetConfig)`
followed by the per-key pass that re-merges keys whose values are truthy
on both sides and a non-array object on the target side. -/
def mergeConfig (originConfig targetConfig : JVal) : JVal :=
  .obj (mergeFields originConfig targetConfig
    (assignFields (ownEnum originConfig) (ownEnum targetConfig)))
termination_by
  (sizeOf targetConfig, sizeOf (assignFields (ownEnum originConfig) (ownEnum targetConfig)) + 1)

/-- The `Object.keys(modifiedObj).forEach` pass of `mergeConfig`,
rewriting each assigned field in place. -/
def mergeFields (originConfig targetConfig : JVal) :
    List (String × JVal) → List (String × JVal)
  | [] => []
  | (k, v) :: rest =>
      (match jsGet originConfig k, hT : jsGet targetConfig k with
       | some o, some t =>
           if hR : (truthy o && truthy t && isRecord t) = true then
             (k, mergeConfig o t)
           else
             (k, v)
       | _, _ => (k, v)) :: mergeFields originConfig targetConfig rest
termination_by fs => (sizeOf targetConfig, sizeOf fs)
decreasing_by
  · simp_wf
    apply Prod.Lex.left
    have h3 : isRecord t = true := by
      simp only [Bool.and_eq_true] at hR
      exact hR.2
    exact jsGet_record_sizeOf_lt hT h3
  · apply Prod.Lex.right
    simp only [List.cons.sizeOf_spec]
    omega

end

/-- Embeds `formatMergeConfig`: deep-merge, then the optional
`formatConfig` post-processing step. -/
def formatMergeConfig (originConfig targetConfig : JVal)
    (formatConfig : Option (JVal → JVal)) : JVal :=
  let mergedConfig := mergeConfig originConfig targetConfig
  match formatConfig with
  | some f => f mergedConfig
  | none => mergedConfig

/-- A render request: `{ dom, data, config, formatConfig }`.  Mount
targets and chart instances are opaque handles compared by reference
identity, modelled as `Nat` ids. -/
structure RenderReq where
  dom : Nat
  data : JVal
  config : Option JVal
  formatConfig : Option (JVal → JVal)

/-- One observable call into an injected collaborator during `render`. -/
inductive REvent where
  | createCall (dom : Nat) (data : JVal) (config : Option JVal)
  | updateConfigCall (chart : Nat) (arg : JVal)
  | renderCall (chart : Nat)
  | stateManagerCall (chart : Nat) (data : JVal) (config : Option JVal)

/-- The injected collaborators of a `SingleChartHOC`: the `getDom`
create function, the optional constructor config, and the behaviour of
the chart instances' `updateConfig`/`render` methods.  Fallible
callbacks return `Except Unit` to model a thrown exception. -/
structure HOCEnv where
  getDom : Nat → JVal → Option JVal → Option (JVal → JVal) → Except Unit Nat
  hasStateManagerFunc : Bool
  getOriginConfig : Option (JVal → Option JVal → Option (JVal → JVal) → JVal)
  updateConfigImpl : Nat → JVal → Except Unit Unit
  renderImpl : Nat → Except Unit Unit

/-- The mutable fields of a `SingleChartHOC`: the three parallel
registry arrays. -/
structure HOCState where
  dataArr : List JVal
  chartPlotArr : List Nat
  domArr : List Nat

/-- The registry of a freshly constructed `SingleChartHOC`. -/
def HOCState.init : HOCState := ⟨[], [], []⟩

/-- JavaScript `v || dflt` for a possibly-`undefined` value. -/
def jsOr (v : Option JVal) (dflt : JVal) : JVal :=
  match v with
  | some x => if truthy x then x else dflt
  | none => dflt

/-- The object literal `{ data, ...merged }` passed to `updateConfig`:
a `data` field first, then the spread of the merged configuration
(which overwrites `data` in place if it carries that key). -/
def updateArg (data merged : JVal) : JVal :=
  .obj (assignFields [("data", data)] (ownEnum merged))

/-- The origin configuration of the update path:
`this.getOriginConfig ? this.getOriginConfig(data, config, formatConfig) : {}`. -/
def originConfigOf (env : HOCEnv) (req : RenderReq) : JVal :=
  match env.getOriginConfig with
  | some f => f req.data req.config req.formatConfig
  | none => JVal.obj []

/-- The object passed to `updateConfig` on the update path:
`{ data, ...formatMergeConfig(originConfig, config || {}, formatConfig) }`. -/
def renderUpdateArg (env : HOCEnv) (req : RenderReq) : JVal :=
  updateArg req.data
    (formatMergeConfig (originConfigOf env req) (jsOr req.config (.obj [])) req.formatConfig)

/-- Embeds `SingleChartHOC.render`: identity lookup of the mount
target, then the create / no-op / update path.  Returns the state after
the call, the trace of collaborator calls made, and the result
(`.error` when an injected callback threw). -/
def SingleChartHOC.render (env : HOCEnv) (st : HOCState) (req : RenderReq) :
    HOCState × List REvent × Except Unit Nat :=
  match st.domArr.findIdx? (fun item => item == req.dom) with
  | none =>
      match env.getDom req.dom req.data req.config req.formatConfig with
      | .error e => (st, [.createCall req.dom req.data req.config], .error e)
      | .ok plot =>
          ({ dataArr := st.dataArr ++ [req.data],
             chartPlotArr := st.chartPlotArr ++ [plot],
             domArr := st.domArr ++ [req.dom] },
           [.createCall req.dom req.data req.config], .ok plot)
  | some idx =>
      if isEqual (st.dataArr.getD idx .null) req.data then
        (st, [], .ok (st.chartPlotArr.getD idx 0))
      else
        let st1 : HOCState := { st with dataArr := st.dataArr.set idx req.data }
        let chart := st.chartPlotArr.getD idx 0
        let arg := renderUpdateArg env req
        match env.updateConfigImpl chart arg with
        | .error e => (st1, [.updateConfigCall chart arg], .error e)
        | .ok _ =>
            match env.renderImpl chart with
            | .error e => (st1, [.updateConfigCall chart arg, .renderCall chart], .error e)
            | .ok _ =>
                if env.hasStateManagerFunc then
                  (st1, [.updateConfigCall chart arg, .renderCall chart,
                         .stateManagerCall chart req.data req.config], .ok chart)
                else
                  (st1, [.updateConfigCall chart arg, .renderCall chart], .ok chart)

/-- Threads a sequence of render requests through one registry,
discarding traces and results (the state evolution is what matters). -/
def renderSeq (env : HOCEnv) (st : HOCState) : List RenderReq → HOCState
  | [] => st
  | r :: rs => renderSeq env (SingleChartHOC.render env st r).1 rs

theorem findIdx_beq_none_iff {l : List Nat} {d : Nat} :
    l.findIdx? (fun item => item == d) = none ↔ d ∉ l := by
  rw [List.findIdx?_eq_none_iff]
  constructor
  · intro h hm
    have := h d hm
    simp at this
  · intro h x hx
    exact beq_false_of_ne (fun he => h (he ▸ hx))

theorem findIdx_beq_some {l : List Nat} {d : Nat} {i : Nat}
    (h : l.findIdx? (fun item => item == d) = some i) :
    i < l.length ∧ l.getD i 0 = d := by
  induction l generalizing i with
  | nil => simp [List.findIdx?_nil] at h
  | cons x rest ih =>
    rw [List.findIdx?_cons] at h
    by_cases hx : (x == d) = true
    · rw [if_pos hx] at h
      injection h with h
      subst h
      exact ⟨by simp, by simpa [List.getD] using eq_of_beq hx⟩
    · rw [if_neg hx, List.findIdx?_succ] at h
      rcases Option.map_eq_some'.mp h with ⟨j, hj, hji⟩
      rcases ih hj with ⟨h1, h2⟩
      subst hji
      refine ⟨by simpa using Nat.succ_lt_succ h1, ?_⟩
      simpa [List.getD] using h2

theorem findIdx_append_singleton {l : List Nat} {d : Nat}
    (h : l.findIdx? (fun item => item == d) = none) :
    (l ++ [d]).findIdx? (fun item => item == d) = some l.length := by
  rw [List.findIdx?_append, h, Option.none_or]
  simp [List.findIdx?_cons]

theorem getD_append_self {α : Type} (l : List α) (a d : α) :
    (l ++ [a]).getD l.length d = a := by
  induction l with
  | nil => rfl
  | cons x rest ih => simpa [List.getD] using ih

theorem getD_append_lt {α : Type} {l l' : List α} {i : Nat} (d : α)
    (h : i < l.length) : (l ++ l').getD i d = l.getD i d := by
  induction l generalizing i with
  | nil => simp at h
  | cons x rest ih =>
    cases i with
    | zero => rfl
    | succ j => simpa [List.getD] using ih (by simpa using h)

theorem getD_set_self {α : Type} {l : List α} {i : Nat} (a d : α)
    (h : i < l.length) : (l.set i a).getD i d = a := by
  induction l generalizing i with
  | nil => simp at h
  | cons x rest ih =>
    cases i with
    | zero => rfl
    | succ j => simpa [List.getD] using ih (by simpa using h)

theorem getD_set_ne {α : Type} {l : List α} {i j : Nat} (a d : α)
    (h : i ≠ j) : (l.set i a).getD j d = l.getD j d := by
  induction l generalizing i j with
  | nil => simp
  | cons x rest ih =>
    cases i with
    | zero =>
      cases j with
      | zero => exact absurd rfl h
      | succ _ => rfl
    | succ i' =>
      cases j with
      | zero => rfl
      | succ j' => simpa [List.getD] using ih (fun he => h (by simp [he]))

theorem JVal.one_le_sizeOf (v : JVal) : 1 ≤ sizeOf v := by
  cases v <;> simp

theorem isEqualSub_eq_true_iff {fs gs : List (String × JVal)} :
    isEqualSub fs gs = true ↔
      ∀ kv ∈ fs, ∃ w, lookupField gs kv.1 = some w ∧ isEqual kv.2 w = true := by
  induction fs with
  | nil => simp [isEqualSub]
  | cons kv rest ih =>
    obtain ⟨k, v⟩ := kv
    rw [isEqualSub]
    rw [Bool.and_eq_true, ih]
    constructor
    · rintro ⟨h1, h2⟩
      intro p hp
      rcases List.mem_cons.mp hp with rfl | hmem
      · revert h1
        split
        · intro h1
          exact ⟨_, by assumption, h1⟩
        · intro h1
          exact absurd h1 (by simp)
      · exact h2 p hmem
    · intro h
      constructor
      · rcases h (k, v) (List.mem_cons_self _ _) with ⟨w, hw, hvw⟩
        split
        · rename_i w' hw'
          rw [hw'] at hw
          injection hw with hw
          exact hw ▸ hvw
        · rename_i hw'
          rw [hw'] at hw
          exact absurd hw (by simp)
      · exact fun p hp => h p (List.mem_cons_of_mem _ hp)

theorem isEqualList_trans_of {xs ys zs : List JVal}
    (et : ∀ x ∈ xs, ∀ y ∈ ys, ∀ z ∈ zs,
      isEqual x y = true → isEqual y z = true → isEqual x z = true)
    (h1 : isEqualList xs ys = true) (h2 : isEqualList ys zs = true) :
    isEqualList xs zs = true := by
  induction xs generalizing ys zs with
  | nil =>
    cases ys with
    | nil => exact h2
    | cons y ys' => simp [isEqualList] at h1
  | cons x xs' ih =>
    cases ys with
    | nil => simp [isEqualList] at h1
    | cons y ys' =>
      cases zs with
      | nil => simp [isEqualList] at h2
      | cons z zs' =>
        rw [isEqualList] at h1 h2 ⊢
        rw [Bool.and_eq_true] at h1 h2 ⊢
        refine ⟨et x (by simp) y (by simp) z (by simp) h1.1 h2.1, ?_⟩
        exact ih
          (fun a ha b hb c hc => et a (by simp [ha]) b (by simp [hb]) c (by simp [hc]))
          h1.2 h2.2

theorem isEqualSub_trans_of {fs gs hs : List (String × JVal)}
    (et : ∀ p ∈ fs, ∀ q ∈ gs, ∀ r ∈ hs,
      isEqual p.2 q.2 = true → isEqual q.2 r.2 = true → isEqual p.2 r.2 = true)
    (h1 : isEqualSub fs gs = true) (h2 : isEqualSub gs hs = true) :
    isEqualSub fs hs = true := by
  rw [isEqualSub_eq_true_iff] at h1 h2 ⊢
  intro p hp
  rcases h1 p hp with ⟨w, hw, hpw⟩
  have hwmem : (p.1, w) ∈ gs := lookupField_mem hw
  rcases h2 (p.1, w) hwmem with ⟨u, hu, hwu⟩
  exact ⟨u, hu, et p hp (p.1, w) hwmem (p.1, u) (lookupField_mem hu) hpw hwu⟩

theorem isEqual_trans_fuel :
    ∀ n : Nat, ∀ a b c : JVal, sizeOf a + sizeOf b + sizeOf c ≤ n →
      isEqual a b = true → isEqual b c = true → isEqual a c = true := by
  intro n
  induction n with
  | zero =>
    intro a b c hle
    have := JVal.one_le_sizeOf a
    have := JVal.one_le_sizeOf b
    omega
  | succ n ih =>
    intro a b c hle hab hbc
    cases a with
    | null =>
      cases b <;> simp [isEqual] at hab
      cases c <;> simp [isEqual] at hbc ⊢
    | bool ab =>
      cases b <;> simp [isEqual] at hab
      cases c <;> simp [isEqual] at hbc ⊢
      exact hab.trans hbc
    | num an =>
      cases b <;> simp [isEqual] at hab
      cases c <;> simp [isEqual] at hbc ⊢
      exact hab.trans hbc
    | str as =>
      cases b <;> simp [isEqual] at hab
      cases c <;> simp [isEqual] at hbc ⊢
      subst hab
      exact hbc
    | arr axs =>
      cases b with
      | arr bxs =>
        cases c with
        | arr cxs =>
          rw [isEqual] at hab hbc ⊢
          refine isEqualList_trans_of ?_ hab hbc
          intro x hx y hy z hz h1 h2
          have sx := List.sizeOf_lt_of_mem hx
          have sy := List.sizeOf_lt_of_mem hy
          have sz := List.sizeOf_lt_of_mem hz
          refine ih x y z ?_ h1 h2
          simp only [JVal.arr.sizeOf_spec] at hle
          omega
        | null => simp [isEqual] at hbc
        | bool _ => simp [isEqual] at hbc
        | num _ => simp [isEqual] at hbc
        | str _ => simp [isEqual] at hbc
        | obj _ => simp [isEqual] at hbc
      | null => simp [isEqual] at hab
      | bool _ => simp [isEqual] at hab
      | num _ => simp [isEqual] at hab
      | str _ => simp [isEqual] at hab
      | obj _ => simp [isEqual] at hab
    | obj afs =>
      cases b with
      | obj bfs =>
        cases c with
        | obj cfs =>
          rw [isEqual] at hab hbc ⊢
          rw [Bool.and_eq_true] at hab hbc ⊢
          refine ⟨by simp only [beq_iff_eq] at *; omega, ?_⟩
          refine isEqualSub_trans_of ?_ hab.2 hbc.2
          intro p hp q hq r hr h1 h2
          have sp := sizeOf_lt_of_mem_pairs (show (p.1, p.2) ∈ afs by simpa using hp)
          have sq := sizeOf_lt_of_mem_pairs (show (q.1, q.2) ∈ bfs by simpa using hq)
          have sr := sizeOf_lt_of_mem_pairs (show (r.1, r.2) ∈ cfs by simpa using hr)
          refine ih p.2 q.2 r.2 ?_ h1 h2
          simp only [JVal.obj.sizeOf_spec] at hle
          omega
        | null => simp [isEqual] at hbc
        | bool _ => simp [isEqual] at hbc
        | num _ => simp [isEqual] at hbc
        | str _ => simp [isEqual] at hbc
        | arr _ => simp [isEqual] at hbc
      | null => simp [isEqual] at hab
      | bool _ => simp [isEqual] at hab
      | num _ => simp [isEqual] at hab
      | str _ => simp [isEqual] at hab
      | arr _ => simp [isEqual] at hab

/-- lodash deep equality is transitive. -/
theorem isEqual_trans {a b c : JVal} (hab : isEqual a b = true)
    (hbc : isEqual b c = true) : isEqual a c = true :=
  isEqual_trans_fuel (sizeOf a + sizeOf b + sizeOf c) a b c (Nat.le_refl _) hab hbc

theorem render_create_ok {env : HOCEnv} {st : HOCState} {req : RenderReq} {plot : Nat}
    (hfind : st.domArr.findIdx? (fun item => item == req.dom) = none)
    (hdom : env.getDom req.dom req.data req.config req.formatConfig = .ok plot) :
    SingleChartHOC.render env st req =
      ({ dataArr := st.dataArr ++ [req.data],
         chartPlotArr := st.chartPlotArr ++ [plot],
         domArr := st.domArr ++ [req.dom] },
       [.createCall req.dom req.data req.config], .ok plot) := by
  simp [SingleChartHOC.render, hfind, hdom]

theorem render_create_err {env : HOCEnv} {st : HOCState} {req : RenderReq} {e : Unit}
    (hfind : st.domArr.findIdx? (fun item => item == req.dom) = none)
    (hdom : env.getDom req.dom req.data req.config req.formatConfig = .error e) :
    SingleChartHOC.render env st req =
      (st, [.createCall req.dom req.data req.config], .error e) := by
  simp [SingleChartHOC.render, hfind, hdom]

theorem render_noop {env : HOCEnv} {st : HOCState} {req : RenderReq} {idx : Nat}
    (hfind : st.domArr.findIdx? (fun item => item == req.dom) = some idx)
    (heq : isEqual (st.dataArr.getD idx .null) req.data = true) :
    SingleChartHOC.render env st req =
      (st, [], .ok (st.chartPlotArr.getD idx 0)) := by
  rw [List.getD_eq_getElem?_getD] at heq
  simp [SingleChartHOC.render, hfind, heq]

theorem render_update_ok {env : HOCEnv} {st : HOCState} {req : RenderReq} {idx : Nat}
    (hfind : st.domArr.findIdx? (fun item => item == req.dom) = some idx)
    (hneq : isEqual (st.dataArr.getD idx .null) req.data = false)
    (hupd : env.updateConfigImpl (st.chartPlotArr.getD idx 0) (renderUpdateArg env req) = .ok ())
    (hren : env.renderImpl (st.chartPlotArr.getD idx 0) = .ok ()) :
    SingleChartHOC.render env st req =
      ({ st with dataArr := st.dataArr.set idx req.data },
       [.updateConfigCall (st.chartPlotArr.getD idx 0) (renderUpdateArg env req),
        .renderCall (st.chartPlotArr.getD idx 0)] ++
         (if env.hasStateManagerFunc then
            [.stateManagerCall (st.chartPlotArr.getD idx 0) req.data req.config]
          else []),
       .ok (st.chartPlotArr.getD idx 0)) := by
  rw [List.getD_eq_getElem?_getD] at hneq
  rw [List.getD_eq_getElem?_getD] at hupd hren
  cases hsm : env.hasStateManagerFunc <;>
    simp [SingleChartHOC.render, hfind, hneq, hupd, hren, hsm]

theorem render_update_err1 {env : HOCEnv} {st : HOCState} {req : RenderReq} {idx : Nat}
    {e : Unit}
    (hfind : st.domArr.findIdx? (fun item => item == req.dom) = some idx)
    (hneq : isEqual (st.dataArr.getD idx .null) req.data = false)
    (hupd : env.updateConfigImpl (st.chartPlotArr.getD idx 0) (renderUpdateArg env req) =
      .error e) :
    SingleChartHOC.render env st req =
      ({ st with dataArr := st.dataArr.set idx req.data },
       [.updateConfigCall (st.chartPlotArr.getD idx 0) (renderUpdateArg env req)],
       .error e) := by
  rw [List.getD_eq_getElem?_getD] at hneq
  rw [List.getD_eq_getElem?_getD] at hupd
  simp [SingleChartHOC.render, hfind, hneq, hupd]

theorem render_update_err2 {env : HOCEnv} {st : HOCState} {req : RenderReq} {idx : Nat}
    {e : Unit}
    (hfind : st.domArr.findIdx? (fun item => item == req.dom) = some idx)
    (hneq : isEqual (st.dataArr.getD idx .null) req.data = false)
    (hupd : env.updateConfigImpl (st.chartPlotArr.getD idx 0) (renderUpdateArg env req) = .ok ())
    (hren : env.renderImpl (st.chartPlotArr.getD idx 0) = .error e) :
    SingleChartHOC.render env st req =
      ({ st with dataArr := st.dataArr.set idx req.data },
       [.updateConfigCall (st.chartPlotArr.getD idx 0) (renderUpdateArg env req),
        .renderCall (st.chartPlotArr.getD idx 0)],
       .error e) := by
  rw [List.getD_eq_getElem?_getD] at hneq
  rw [List.getD_eq_getElem?_getD] at hupd hren
  simp [SingleChartHOC.render, hfind, hneq, hupd, hren]

/-- The three registry arrays move in lockstep; every reachable
registry state satisfies this. -/
def HOCState.aligned (st : HOCState) : Prop :=
  st.dataArr.length = st.domArr.length ∧ st.chartPlotArr.length = st.domArr.length

def isCreateEvent : REvent → Bool
  | .createCall _ _ _ => true
  | _ => false

def isUpdateConfigEvent : REvent → Bool
  | .updateConfigCall _ _ => true
  | _ => false

def isRenderEvent : REvent → Bool
  | .renderCall _ => true
  | _ => false

def isStateManagerEvent : REvent → Bool
  | .stateManagerCall _ _ _ => true
  | _ => false

/-- The chart instance an event is addressed to, if it is an
instance-method or state-manager call. -/
def eventChart : REvent → Option Nat
  | .createCall _ _ _ => none
  | .updateConfigCall chart _ => some chart
  | .renderCall chart => some chart
  | .stateManagerCall chart _ _ => some chart

theorem render_preserves_aligned {env : HOCEnv} {st : HOCState} {req : RenderReq}
    (h : st.aligned) : (SingleChartHOC.render env st req).1.aligned := by
  obtain ⟨h1, h2⟩ := h
  cases hfind : st.domArr.findIdx? (fun item => item == req.dom) with
  | none =>
    cases hdom : env.getDom req.dom req.data req.config req.formatConfig with
    | error e => rw [render_create_err hfind hdom]; exact ⟨h1, h2⟩
    | ok plot =>
      rw [render_create_ok hfind hdom]
      exact ⟨by simp [h1], by simp [h2]⟩
  | some idx =>
    cases heq : isEqual (st.dataArr.getD idx .null) req.data with
    | true => rw [render_noop hfind heq]; exact ⟨h1, h2⟩
    | false =>
      cases hupd : env.updateConfigImpl (st.chartPlotArr.getD idx 0) (renderUpdateArg env req) with
      | error e => rw [render_update_err1 hfind heq hupd]; exact ⟨by simp [h1], h2⟩
      | ok a =>
        obtain ⟨⟩ := a
        cases hren : env.renderImpl (st.chartPlotArr.getD idx 0) with
        | error e => rw [render_update_err2 hfind heq hupd hren]; exact ⟨by simp [h1], h2⟩
        | ok a =>
          obtain ⟨⟩ := a
          rw [render_update_ok hfind heq hupd hren]
          exact ⟨by simp [h1], h2⟩

/-- `render` never shrinks or reorders the mount-target array: it is
extended only on the create path. -/
theorem render_domArr_grows {env : HOCEnv} {st : HOCState} {req : RenderReq} :
    st.domArr <+: (SingleChartHOC.render env st req).1.domArr := by
  cases hfind : st.domArr.findIdx? (fun item => item == req.dom) with
  | none =>
    cases hdom : env.getDom req.dom req.data req.config req.formatConfig with
    | error e => rw [render_create_err hfind hdom]
    | ok plot => rw [render_create_ok hfind hdom]; exact ⟨[req.dom], rfl⟩
  | some idx =>
    cases heq : isEqual (st.dataArr.getD idx .null) req.data with
    | true => rw [render_noop hfind heq]
    | false =>
      cases hupd : env.updateConfigImpl (st.chartPlotArr.getD idx 0) (renderUpdateArg env req) with
      | error e => rw [render_update_err1 hfind heq hupd]
      | ok a =>
        obtain ⟨⟩ := a
        cases hren : env.renderImpl (st.chartPlotArr.getD idx 0) with
        | error e => rw [render_update_err2 hfind heq hupd hren]
        | ok a =>
          obtain ⟨⟩ := a
          rw [render_update_ok hfind heq hupd hren]

/-- When the mount target is already registered, `render` touches
neither the target array nor the instance array. -/
theorem render_found_arrays_unchanged {env : HOCEnv} {st : HOCState} {req : RenderReq}
    {idx : Nat} (hfind : st.domArr.findIdx? (fun item => item == req.dom) = some idx) :
    (SingleChartHOC.render env st req).1.domArr = st.domArr ∧
      (SingleChartHOC.render env st req).1.chartPlotArr = st.chartPlotArr := by
  cases heq : isEqual (st.dataArr.getD idx .null) req.data with
  | true => rw [render_noop hfind heq]; exact ⟨rfl, rfl⟩
  | false =>
    cases hupd : env.updateConfigImpl (st.chartPlotArr.getD idx 0) (renderUpdateArg env req) with
    | error e => rw [render_update_err1 hfind heq hupd]; exact ⟨rfl, rfl⟩
    | ok a =>
      obtain ⟨⟩ := a
      cases hren : env.renderImpl (st.chartPlotArr.getD idx 0) with
      | error e => rw [render_update_err2 hfind heq hupd hren]; exact ⟨rfl, rfl⟩
      | ok a =>
        obtain ⟨⟩ := a
        rw [render_update_ok hfind heq hupd hren]
        exact ⟨rfl, rfl⟩

theorem render_preserves_nodup {env : HOCEnv} {st : HOCState} {req : RenderReq}
    (h : st.domArr.Nodup) : (SingleChartHOC.render env st req).1.domArr.Nodup := by
  cases hfind : st.domArr.findIdx? (fun item => item == req.dom) with
  | none =>
    cases hdom : env.getDom req.dom req.data req.config req.formatConfig with
    | error e => rw [render_create_err hfind hdom]; exact h
    | ok plot =>
      rw [render_create_ok hfind hdom]
      have hmem : req.dom ∉ st.domArr := findIdx_beq_none_iff.mp hfind
      simp [List.nodup_append, h, hmem]
  | some idx => exact (render_found_arrays_unchanged hfind).1 ▸ h

theorem truthy_of_isRecord {t : JVal} (h : isRecord t = true) : truthy t = true := by
  cases t <;> simp_all [isRecord, truthy]

theorem lookupField_of_nodup_mem {fs : List (String × JVal)} {kv : String × JVal}
    (hnd : (fs.map Prod.fst).Nodup) (hm : kv ∈ fs) :
    lookupField fs kv.1 = some kv.2 := by
  induction fs with
  | nil => simp at hm
  | cons hd rest ih =>
    rcases List.mem_cons.mp hm with rfl | hmem
    · rw [lookupField]
      simp
    · have hne : hd.1 ≠ kv.1 := by
        intro he
        have : kv.1 ∈ rest.map Prod.fst := List.mem_map.mpr ⟨kv, hmem, rfl⟩
        rw [List.map_cons] at hnd
        exact (List.nodup_cons.mp hnd).1 (he ▸ this)
      obtain ⟨k, v⟩ := hd
      rw [lookupField]
      rw [if_neg (by simpa using hne)]
      exact ih (by rw [List.map_cons] at hnd; exact (List.nodup_cons.mp hnd).2) hmem

theorem mergeFields_cons (o t : JVal) (k : String) (v : JVal)
    (rest : List (String × JVal)) :
    mergeFields o t ((k, v) :: rest) =
      (match jsGet o k, jsGet t k with
       | some ov, some tv =>
           if (truthy ov && truthy tv && isRecord tv) = true then (k, mergeConfig ov tv)
           else (k, v)
       | _, _ => (k, v)) :: mergeFields o t rest := by
  rw [mergeFields]
  congr 1
  cases ho : jsGet o k <;> cases ht : jsGet t k <;> simp [ho, ht]

theorem mergeFields_id_of_absent (o t : JVal) {l : List (String × JVal)}
    (h0 : ∀ kv ∈ l, jsGet o kv.1 = none) : mergeFields o t l = l := by
  induction l with
  | nil => rw [mergeFields]
  | cons kv rest ih =>
    obtain ⟨k, v⟩ := kv
    rw [mergeFields_cons]
    rw [h0 (k, v) (List.mem_cons_self _ _)]
    rw [ih (fun p hp => h0 p (List.mem_cons_of_mem _ hp))]

theorem truthy_false_ownEnum {v : JVal} (h : truthy v = false) : ownEnum v = [] := by
  cases v with
  | null => rfl
  | bool b => rfl
  | num n => rfl
  | str s =>
    have hs : s = "" := by simpa [truthy] using h
    subst hs
    rfl
  | arr xs => simp [truthy] at h
  | obj fs => simp [truthy] at h

/-- Merging a falsy value into a record copies the record: falsy values
have no own enumerable properties and answer no property read. -/
theorem mergeConfig_falsy {v : JVal} {gs : List (String × JVal)}
    (h : truthy v = false) : mergeConfig v (.obj gs) = .obj gs := by
  have henum : ownEnum v = [] := truthy_false_ownEnum h
  rw [mergeConfig]
  have hassign : assignFields (ownEnum v) (ownEnum (.obj gs)) = gs := by
    rw [henum]
    show assignFields [] gs = gs
    simp [assignFields, lookupField]
  rw [hassign]
  rw [mergeFields_id_of_absent]
  intro kv _
  simp [jsGet, henum, lookupField]

/-- The spec's deep-merge rule, stated per key: target shallow-overlays
origin, except that a key present in both sides whose target value is a
non-array, non-null record is merged recursively; origin keys keep
their position, fresh target keys are appended. -/
def specMergeFields (fs gs : List (String × JVal)) : List (String × JVal) :=
  (fs.map fun kv =>
    match lookupField gs kv.1 with
    | some tv => if isRecord tv then (kv.1, mergeConfig kv.2 tv) else (kv.1, tv)
    | none => kv) ++
    gs.filter (fun kv => (lookupField fs kv.1).isNone)

theorem mergeFields_append (o t : JVal) (l1 l2 : List (String × JVal)) :
    mergeFields o t (l1 ++ l2) = mergeFields o t l1 ++ mergeFields o t l2 := by
  induction l1 with
  | nil => rw [mergeFields]; rfl
  | cons kv rest ih =>
    obtain ⟨k, v⟩ := kv
    rw [List.cons_append, mergeFields_cons, mergeFields_cons, ih, List.cons_append]

theorem mergeFields_overlay (o : JVal) (gs : List (String × JVal))
    {l : List (String × JVal)} (hl : ∀ kv ∈ l, jsGet o kv.1 = some kv.2) :
    mergeFields o (.obj gs) (l.map fun kv => (kv.1, (lookupField gs kv.1).getD kv.2)) =
      l.map (fun kv =>
        match lookupField gs kv.1 with
        | some tv => if isRecord tv then (kv.1, mergeConfig kv.2 tv) else (kv.1, tv)
        | none => kv) := by
  induction l with
  | nil => rw [List.map_nil, List.map_nil, mergeFields]
  | cons kv rest ih =>
    obtain ⟨k, v⟩ := kv
    rw [List.map_cons, List.map_cons, mergeFields_cons]
    have hk : jsGet o k = some v := hl (k, v) (List.mem_cons_self _ _)
    rw [ih (fun p hp => hl p (List.mem_cons_of_mem _ hp))]
    congr 1
    have hgs : jsGet (JVal.obj gs) k = lookupField gs k := rfl
    cases ht : lookupField gs k with
    | none => simp [hk, hgs, ht]
    | some tv =>
      cases hrec : isRecord tv with
      | false => simp [hk, hgs, ht, hrec]
      | true =>
        have htt : truthy tv = true := truthy_of_isRecord hrec
        cases hv : truthy v with
        | true => simp [hk, hgs, ht, hrec, htt, hv]
        | false =>
          cases tv with
          | obj gs2 =>
            simp [hk, hgs, ht, hv, mergeConfig_falsy hv]
          | null => simp [isRecord] at hrec
          | bool b => simp [isRecord] at hrec
          | num n => simp [isRecord] at hrec
          | str s => simp [isRecord] at hrec
          | arr xs => simp [isRecord] at hrec

theorem mergeConfig_obj_eq_spec {fs gs : List (String × JVal)}
    (hnd : (fs.map Prod.fst).Nodup) :
    mergeConfig (.obj fs) (.obj gs) = .obj (specMergeFields fs gs) := by
  rw [mergeConfig]
  show JVal.obj (mergeFields (.obj fs) (.obj gs) (assignFields fs gs)) = _
  rw [specMergeFields, assignFields, mergeFields_append]
  congr 1
  congr 1
  · exact mergeFields_overlay (.obj fs) gs
      (fun kv hm => lookupField_of_nodup_mem hnd hm)
  · refine mergeFields_id_of_absent _ _ (fun kv hm => ?_)
    have := List.of_mem_filter hm
    show lookupField fs kv.1 = none
    simpa using this

/-- C3: `mergeConfig` shallow-overlays the target onto the origin,
except that every key present in both whose target value is a
non-array, non-null record is merged recursively; array- and
scalar-valued target fields replace the origin field wholesale.  The
three concrete examples of the spec are included. -/
theorem mergeConfig_matches_deep_merge_rule :
    (∀ fs gs : List (String × JVal), (fs.map Prod.fst).Nodup →
        mergeConfig (.obj fs) (.obj gs) = .obj (specMergeFields fs gs)) ∧
    mergeConfig (.obj [("a", .obj [("x", .num 1), ("y", .num 2)])])
        (.obj [("a", .obj [("y", .num 3)])]) =
      .obj [("a", .obj [("x", .num 1), ("y", .num 3)])] ∧
    mergeConfig (.obj [("a", .arr [.num 1, .num 2])]) (.obj [("a", .arr [.num 3])]) =
      .obj [("a", .arr [.num 3])] ∧
    mergeConfig (.obj [("a", .num 1)]) (.obj [("a", .obj [("b", .num 2)])]) =
      .obj [("a", .obj [("b", .num 2)])] := by
  refine ⟨fun fs gs hnd => mergeConfig_obj_eq_spec hnd, ?_, ?_, ?_⟩ <;>
    simp [mergeConfig, mergeFields, assignFields, ownEnum, jsGet, lookupField,
      truthy, isRecord]

/-- Witness for C3: the general clause applied to concrete records. -/
theorem mergeConfig_matches_deep_merge_rule_witness :
    (([(("a" : String), JVal.num 1)].map Prod.fst).Nodup ∧
      mergeConfig (.obj [("a", .num 1)]) (.obj [("a", .obj [("b", .num 2)])]) =
        .obj (specMergeFields [("a", .num 1)] [("a", .obj [("b", .num 2)])])) :=
  ⟨by simp, mergeConfig_matches_deep_merge_rule.1 _ _ (by simp)⟩

/-- C4: `formatMergeConfig` first deep-merges, then applies
`formatConfig` to the merged result when supplied, and otherwise
returns the merged result; with the spec's example
`formatMergeConfig({a:1}, {a:2}, cfg => ({a: cfg.a + 100})) = {a: 102}`. -/
theorem formatMergeConfig_merge_then_format :
    (∀ (originConfig targetConfig : JVal) (f : JVal → JVal),
        formatMergeConfig originConfig targetConfig (some f) =
          f (mergeConfig originConfig targetConfig)) ∧
    (∀ originConfig targetConfig : JVal,
        formatMergeConfig originConfig targetConfig none =
          mergeConfig originConfig targetConfig) ∧
    formatMergeConfig (.obj [("a", .num 1)]) (.obj [("a", .num 2)])
        (some fun cfg => .obj [("a", .num
          ((match jsGet cfg "a" with | some (.num n) => n | _ => 0) + 100))]) =
      .obj [("a", .num 102)] := by
  refine ⟨fun o t f => rfl, fun o t => rfl, ?_⟩
  simp [formatMergeConfig, mergeConfig, mergeFields, assignFields, ownEnum, jsGet,
    lookupField, truthy, isRecord]

/-- C2: with the target registered and data not deeply equal to the
stored data, `render` takes the update path: the stored data is
replaced by the new data, `updateConfig` is called on the stored
instance with the new data plus
`formatMergeConfig(originConfig, config or empty, formatConfig)` where
the origin configuration comes from `getOriginConfig` when supplied and
is empty otherwise, the instance's `render` is called next, the
existing instance is returned, and the create function is not
invoked. -/
theorem render_update_path_behaviour (env : HOCEnv) (st : HOCState) (req : RenderReq)
    (idx : Nat)
    (hfind : st.domArr.findIdx? (fun item => item == req.dom) = some idx)
    (hneq : isEqual (st.dataArr.getD idx .null) req.data = false)
    (hupd : env.updateConfigImpl (st.chartPlotArr.getD idx 0) (renderUpdateArg env req) = .ok ())
    (hren : env.renderImpl (st.chartPlotArr.getD idx 0) = .ok ()) :
    (SingleChartHOC.render env st req).1.dataArr = st.dataArr.set idx req.data ∧
    (SingleChartHOC.render env st req).1.domArr = st.domArr ∧
    (SingleChartHOC.render env st req).1.chartPlotArr = st.chartPlotArr ∧
    (SingleChartHOC.render env st req).2.2 = .ok (st.chartPlotArr.getD idx 0) ∧
    (SingleChartHOC.render env st req).2.1.take 2 =
      [.updateConfigCall (st.chartPlotArr.getD idx 0)
          (updateArg req.data (formatMergeConfig (originConfigOf env req)
            (jsOr req.config (.obj [])) req.formatConfig)),
        .renderCall (st.chartPlotArr.getD idx 0)] ∧
    (SingleChartHOC.render env st req).2.1.countP isCreateEvent = 0 ∧
    (∀ f, env.getOriginConfig = some f →
        originConfigOf env req = f req.data req.config req.formatConfig) ∧
    (env.getOriginConfig = none → originConfigOf env req = .obj []) := by
  rw [render_update_ok hfind hneq hupd hren]
  refine ⟨rfl, rfl, rfl, rfl, rfl, ?_, ?_, ?_⟩
  · cases env.hasStateManagerFunc <;> simp [isCreateEvent]
  · intro f hf
    simp [originConfigOf, hf]
  · intro hf
    simp [originConfigOf, hf]

/-- C8: on the update path the stored data is overwritten before
`updateConfig` and the instance `render` run, so when either of them
throws, the error propagates while the registry already records the new
data: the update is not rolled back. -/
theorem render_update_not_atomic (env : HOCEnv) (st : HOCState) (req : RenderReq)
    (idx : Nat)
    (hfind : st.domArr.findIdx? (fun item => item == req.dom) = some idx)
    (hneq : isEqual (st.dataArr.getD idx .null) req.data = false) :
    (∀ e, env.updateConfigImpl (st.chartPlotArr.getD idx 0) (renderUpdateArg env req) =
        .error e →
      (SingleChartHOC.render env st req).2.2 = .error e ∧
      (SingleChartHOC.render env st req).1.dataArr = st.dataArr.set idx req.data) ∧
    (∀ e, env.updateConfigImpl (st.chartPlotArr.getD idx 0) (renderUpdateArg env req) =
        .ok () →
      env.renderImpl (st.chartPlotArr.getD idx 0) = .error e →
      (SingleChartHOC.render env st req).2.2 = .error e ∧
      (SingleChartHOC.render env st req).1.dataArr = st.dataArr.set idx req.data) := by
  constructor
  · intro e hupd
    rw [render_update_err1 hfind hneq hupd]
    exact ⟨rfl, rfl⟩
  · intro e hupd hren
    rw [render_update_err2 hfind hneq hupd hren]
    exact ⟨rfl, rfl⟩

/-- C9: on the create path the create function runs before any registry
write, so a throwing create function leaves the registry exactly as it
was, and a later render for the same mount target takes the create path
again. -/
theorem render_create_failure_leaves_registry_unchanged (env : HOCEnv) (st : HOCState)
    (req req2 : RenderReq) (e : Unit)
    (hfind : st.domArr.findIdx? (fun item => item == req.dom) = none)
    (hdom : env.getDom req.dom req.data req.config req.formatConfig = .error e)
    (hdom2 : req2.dom = req.dom) :
    SingleChartHOC.render env st req =
      (st, [.createCall req.dom req.data req.config], .error e) ∧
    (SingleChartHOC.render env st req).1.domArr.findIdx?
      (fun item => item == req2.dom) = none := by
  have h1 := render_create_err hfind hdom
  refine ⟨h1, ?_⟩
  rw [h1, hdom2]
  exact hfind

/-- C6: when constructed with a `stateManagerFunc`, it is invoked
exactly once per completed update-path render, with exactly the stored
instance, the data of this call and the config of this call; it is
never invoked on a create-path render or a no-op render. -/
theorem stateManagerFunc_invocation_timing (env : HOCEnv) (st : HOCState)
    (req : RenderReq) (hsm : env.hasStateManagerFunc = true) :
    (st.domArr.findIdx? (fun item => item == req.dom) = none →
      (SingleChartHOC.render env st req).2.1.countP isStateManagerEvent = 0) ∧
    (∀ idx, st.domArr.findIdx? (fun item => item == req.dom) = some idx →
      isEqual (st.dataArr.getD idx .null) req.data = true →
      (SingleChartHOC.render env st req).2.1.countP isStateManagerEvent = 0) ∧
    (∀ idx, st.domArr.findIdx? (fun item => item == req.dom) = some idx →
      isEqual (st.dataArr.getD idx .null) req.data = false →
      env.updateConfigImpl (st.chartPlotArr.getD idx 0) (renderUpdateArg env req) = .ok () →
      env.renderImpl (st.chartPlotArr.getD idx 0) = .ok () →
      (SingleChartHOC.render env st req).2.1.filter isStateManagerEvent =
        [.stateManagerCall (st.chartPlotArr.getD idx 0) req.data req.config]) := by
  refine ⟨?_, ?_, ?_⟩
  · intro hfind
    cases hdom : env.getDom req.dom req.data req.config req.formatConfig with
    | error e => rw [render_create_err hfind hdom]; simp [isStateManagerEvent]
    | ok plot => rw [render_create_ok hfind hdom]; simp [isStateManagerEvent]
  · intro idx hfind heq
    rw [render_noop hfind heq]
    simp
  · intro idx hfind hneq hupd hren
    rw [render_update_ok hfind hneq hupd hren, hsm]
    simp [isStateManagerEvent]

/-- C7: a render call for one mount target leaves every other
registered target's stored data and instance unchanged; every create
call in its trace is for the rendered target, and, provided the other
target's stored instance is a different object, no instance-method or
state-manager call is addressed to it. -/
theorem render_independent_targets (env : HOCEnv) (st : HOCState) (req : RenderReq)
    (j domB : Nat)
    (hal : st.aligned)
    (hBne : domB ≠ req.dom)
    (hBj : st.domArr.findIdx? (fun item => item == domB) = some j) :
    (SingleChartHOC.render env st req).1.dataArr.getD j .null = st.dataArr.getD j .null ∧
    (SingleChartHOC.render env st req).1.chartPlotArr.getD j 0 = st.chartPlotArr.getD j 0 ∧
    (∀ ev ∈ (SingleChartHOC.render env st req).2.1,
        isCreateEvent ev = true → ev = .createCall req.dom req.data req.config) ∧
    ((∀ i, st.domArr.findIdx? (fun item => item == req.dom) = some i →
        st.chartPlotArr.getD i 0 ≠ st.chartPlotArr.getD j 0) →
      ∀ ev ∈ (SingleChartHOC.render env st req).2.1, ∀ ch,
        eventChart ev = some ch → ch ≠ st.chartPlotArr.getD j 0) := by
  obtain ⟨hj, hjd⟩ := findIdx_beq_some hBj
  cases hfind : st.domArr.findIdx? (fun item => item == req.dom) with
  | none =>
    cases hdom : env.getDom req.dom req.data req.config req.formatConfig with
    | error e =>
      rw [render_create_err hfind hdom]
      refine ⟨rfl, rfl, ?_, ?_⟩
      · intro ev hev _
        simpa using hev
      · intro _ ev hev ch hch
        rcases List.mem_singleton.mp hev with rfl
        simp [eventChart] at hch
    | ok plot =>
      rw [render_create_ok hfind hdom]
      refine ⟨?_, ?_, ?_, ?_⟩
      · exact getD_append_lt _ (by rw [hal.1]; exact hj)
      · exact getD_append_lt _ (by rw [hal.2]; exact hj)
      · intro ev hev _
        simpa using hev
      · intro _ ev hev ch hch
        rcases List.mem_singleton.mp hev with rfl
        simp [eventChart] at hch
  | some i =>
    have hne : i ≠ j := by
      intro he
      obtain ⟨_, hid⟩ := findIdx_beq_some hfind
      exact hBne (by rw [← hjd, ← he, hid])
    cases heq : isEqual (st.dataArr.getD i .null) req.data with
    | true =>
      rw [render_noop hfind heq]
      refine ⟨rfl, rfl, ?_, ?_⟩
      · intro ev hev
        simp at hev
      · intro _ ev hev
        simp at hev
    | false =>
      cases hupd : env.updateConfigImpl (st.chartPlotArr.getD i 0) (renderUpdateArg env req) with
      | error e =>
        rw [render_update_err1 hfind heq hupd]
        refine ⟨getD_set_ne _ _ hne, rfl, ?_, ?_⟩
        · intro ev hev
          rcases List.mem_singleton.mp hev with rfl
          simp [isCreateEvent]
        · intro hinst ev hev ch hch
          rcases List.mem_singleton.mp hev with rfl
          simp [eventChart] at hch
          (have h9 := hinst i rfl; rw [List.getD_eq_getElem?_getD] at h9; exact hch ▸ h9)
      | ok a =>
        obtain ⟨⟩ := a
        cases hren : env.renderImpl (st.chartPlotArr.getD i 0) with
        | error e =>
          rw [render_update_err2 hfind heq hupd hren]
          refine ⟨getD_set_ne _ _ hne, rfl, ?_, ?_⟩
          · intro ev hev
            rcases List.mem_cons.mp hev with rfl | hev2
            · simp [isCreateEvent]
            · rcases List.mem_singleton.mp hev2 with rfl
              simp [isCreateEvent]
          · intro hinst ev hev ch hch
            rcases List.mem_cons.mp hev with rfl | hev2
            · simp [eventChart] at hch
              (have h9 := hinst i rfl; rw [List.getD_eq_getElem?_getD] at h9; exact hch ▸ h9)
            · rcases List.mem_singleton.mp hev2 with rfl
              simp [eventChart] at hch
              (have h9 := hinst i rfl; rw [List.getD_eq_getElem?_getD] at h9; exact hch ▸ h9)
        | ok a =>
          obtain ⟨⟩ := a
          rw [render_update_ok hfind heq hupd hren]
          refine ⟨getD_set_ne _ _ hne, rfl, ?_, ?_⟩
          · intro ev hev
            cases hsm : env.hasStateManagerFunc <;> rw [hsm] at hev <;> simp at hev <;>
              rcases hev with rfl | rfl | rfl <;> simp [isCreateEvent]
          · intro hinst ev hev ch hch
            cases hsm : env.hasStateManagerFunc <;> rw [hsm] at hev <;> simp at hev <;>
              rcases hev with rfl | rfl | rfl <;>
              simp [eventChart] at hch <;>
              (have h9 := hinst i rfl; rw [List.getD_eq_getElem?_getD] at h9; exact hch ▸ h9)

theorem renderSeq_nodup (env : HOCEnv) (reqs : List RenderReq) :
    ∀ st : HOCState, st.domArr.Nodup → (renderSeq env st reqs).domArr.Nodup := by
  induction reqs with
  | nil => exact fun st h => h
  | cons r rs ih =>
    intro st h
    rw [renderSeq]
    exact ih _ (render_preserves_nodup h)

/-- C5: along any sequence of render calls the registry keeps at most
one entry per mount target: starting empty the target array stays
duplicate-free, an already-registered target's render leaves the target
array unchanged (in-place update), entries are never removed (the old
target array is a prefix of the new one), and a new entry is appended
exactly on the successful create path. -/
theorem registry_single_entry_invariant :
    (∀ (env : HOCEnv) (reqs : List RenderReq),
        (renderSeq env HOCState.init reqs).domArr.Nodup) ∧
    (∀ (env : HOCEnv) (st : HOCState) (req : RenderReq) (idx : Nat),
        st.domArr.findIdx? (fun item => item == req.dom) = some idx →
        (SingleChartHOC.render env st req).1.domArr = st.domArr) ∧
    (∀ (env : HOCEnv) (st : HOCState) (req : RenderReq),
        st.domArr <+: (SingleChartHOC.render env st req).1.domArr) ∧
    (∀ (env : HOCEnv) (st : HOCState) (req : RenderReq) (plot : Nat),
        st.domArr.findIdx? (fun item => item == req.dom) = none →
        env.getDom req.dom req.data req.config req.formatConfig = .ok plot →
        (SingleChartHOC.render env st req).1.domArr = st.domArr ++ [req.dom]) := by
  refine ⟨?_, ?_, ?_, ?_⟩
  · exact fun env reqs => renderSeq_nodup env reqs HOCState.init List.nodup_nil
  · exact fun env st req idx hfind => (render_found_arrays_unchanged hfind).1
  · exact fun env st req => render_domArr_grows
  · intro env st req plot hfind hdom
    rw [render_create_ok hfind hdom]

/-- C1: two render calls with the same mount target and deeply equal
data (possibly distinct objects, in any key order) invoke the create
function at most once; the second call performs no collaborator call at
all, leaves the registry unchanged, and returns the stored instance. -/
theorem render_cached_on_deep_equal_data (env : HOCEnv) (st : HOCState)
    (req1 req2 : RenderReq)
    (hal : st.aligned)
    (hdom : req2.dom = req1.dom)
    (heq : isEqual req1.data req2.data = true)
    (hok : ∃ r, (SingleChartHOC.render env st req1).2.2 = .ok r) :
    ((SingleChartHOC.render env st req1).2.1 ++
        (SingleChartHOC.render env (SingleChartHOC.render env st req1).1 req2).2.1).countP
      isCreateEvent ≤ 1 ∧
    (SingleChartHOC.render env (SingleChartHOC.render env st req1).1 req2).2.1 = [] ∧
    (SingleChartHOC.render env (SingleChartHOC.render env st req1).1 req2).1 =
      (SingleChartHOC.render env st req1).1 ∧
    ∃ idx, (SingleChartHOC.render env st req1).1.domArr.findIdx?
        (fun item => item == req2.dom) = some idx ∧
      (SingleChartHOC.render env (SingleChartHOC.render env st req1).1 req2).2.2 =
        .ok ((SingleChartHOC.render env st req1).1.chartPlotArr.getD idx 0) := by
  obtain ⟨r, hr⟩ := hok
  cases hfind : st.domArr.findIdx? (fun item => item == req1.dom) with
  | none =>
    cases hdom1 : env.getDom req1.dom req1.data req1.config req1.formatConfig with
    | error e =>
      rw [render_create_err hfind hdom1] at hr
      simp at hr
    | ok plot =>
      have h1 := render_create_ok hfind hdom1
      rw [h1]
      have hfind2 : (st.domArr ++ [req1.dom]).findIdx? (fun item => item == req2.dom) =
          some st.domArr.length := by
        rw [hdom]
        exact findIdx_append_singleton hfind
      have hstored : (st.dataArr ++ [req1.data]).getD st.domArr.length .null = req1.data := by
        rw [← hal.1]
        exact getD_append_self _ _ _
      have heq2 : isEqual ((st.dataArr ++ [req1.data]).getD st.domArr.length .null)
          req2.data = true := by
        rw [hstored]
        exact heq
      have h2 := @render_noop env
        ⟨st.dataArr ++ [req1.data], st.chartPlotArr ++ [plot],
          st.domArr ++ [req1.dom]⟩ req2 st.domArr.length hfind2 heq2
      rw [h2]
      exact ⟨by simp [isCreateEvent], rfl, rfl, ⟨st.domArr.length, hfind2, rfl⟩⟩
  | some idx =>
    obtain hidx := findIdx_beq_some hfind
    cases heq1 : isEqual (st.dataArr.getD idx .null) req1.data with
    | true =>
      have h1 := @render_noop env st req1 idx hfind heq1
      rw [h1]
      have hfind2 : st.domArr.findIdx? (fun item => item == req2.dom) = some idx := by
        rw [hdom]
        exact hfind
      have heq2 : isEqual (st.dataArr.getD idx .null) req2.data = true :=
        isEqual_trans heq1 heq
      have h2 := @render_noop env st req2 idx hfind2 heq2
      rw [h2]
      exact ⟨by simp, rfl, rfl, ⟨idx, hfind2, rfl⟩⟩
    | false =>
      cases hupd : env.updateConfigImpl (st.chartPlotArr.getD idx 0)
          (renderUpdateArg env req1) with
      | error e =>
        rw [render_update_err1 hfind heq1 hupd] at hr
        simp at hr
      | ok a =>
        obtain ⟨⟩ := a
        cases hren : env.renderImpl (st.chartPlotArr.getD idx 0) with
        | error e =>
          rw [render_update_err2 hfind heq1 hupd hren] at hr
          simp at hr
        | ok a =>
          obtain ⟨⟩ := a
          have h1 := render_update_ok hfind heq1 hupd hren
          rw [h1]
          have hfind2 : st.domArr.findIdx? (fun item => item == req2.dom) = some idx := by
            rw [hdom]
            exact hfind
          have hstored : (st.dataArr.set idx req1.data).getD idx .null = req1.data :=
            getD_set_self _ _ (by rw [hal.1]; exact hidx.1)
          have heq2 : isEqual ((st.dataArr.set idx req1.data).getD idx .null)
              req2.data = true := by
            rw [hstored]
            exact heq
          have h2 := @render_noop env
            ⟨st.dataArr.set idx req1.data, st.chartPlotArr, st.domArr⟩ req2 idx
            hfind2 heq2
          rw [h2]
          refine ⟨?_, rfl, rfl, ⟨idx, hfind2, rfl⟩⟩
          cases env.hasStateManagerFunc <;> simp [isCreateEvent]

/-- A concrete, fully successful collaborator environment. -/
def envW : HOCEnv where
  getDom := fun _ _ _ _ => .ok 7
  hasStateManagerFunc := true
  getOriginConfig := some fun _ _ _ => .obj [("base", .num 5)]
  updateConfigImpl := fun _ _ => .ok ()
  renderImpl := fun _ => .ok ()

/-- A collaborator environment whose callbacks all throw. -/
def envE : HOCEnv where
  getDom := fun _ _ _ _ => .error ()
  hasStateManagerFunc := false
  getOriginConfig := none
  updateConfigImpl := fun _ _ => .error ()
  renderImpl := fun _ => .error ()

/-- A one-entry registry: target 3 showing data 1 through instance 7. -/
def stW : HOCState := ⟨[.num 1], [7], [3]⟩

/-- A two-entry registry: targets 3 and 4 with instances 7 and 8. -/
def st2W : HOCState := ⟨[.num 1, .num 10], [7, 8], [3, 4]⟩

/-- A request for target 3 carrying changed data. -/
def reqW : RenderReq := ⟨3, .num 2, none, none⟩

/-- A request for fresh target 5 with record data in one key order. -/
def req1W : RenderReq := ⟨5, .obj [("a", .num 1), ("b", .num 2)], none, none⟩

/-- The same target and deeply equal data as `req1W`, but a distinct
record with the keys in the other insertion order. -/
def req2W : RenderReq := ⟨5, .obj [("b", .num 2), ("a", .num 1)], none, none⟩

/-- Witness for C1: create then re-render with a reordered but deeply
equal record; the second call performs no collaborator call. -/
theorem render_cached_on_deep_equal_data_witness :
    (HOCState.init.aligned ∧ req2W.dom = req1W.dom ∧
      isEqual req1W.data req2W.data = true ∧
      (SingleChartHOC.render envW HOCState.init req1W).2.2 = .ok 7) ∧
    (SingleChartHOC.render envW (SingleChartHOC.render envW HOCState.init req1W).1
      req2W).2.1 = [] :=
  ⟨⟨⟨rfl, rfl⟩, rfl, by simp [req1W, req2W, isEqual, isEqualSub, lookupField], rfl⟩,
    (render_cached_on_deep_equal_data envW HOCState.init req1W req2W ⟨rfl, rfl⟩ rfl
      (by simp [req1W, req2W, isEqual, isEqualSub, lookupField]) ⟨7, rfl⟩).2.1⟩

/-- Witness for C2: an update-path render replaces the stored data. -/
theorem render_update_path_behaviour_witness :
    (stW.domArr.findIdx? (fun item => item == reqW.dom) = some 0 ∧
      isEqual (stW.dataArr.getD 0 .null) reqW.data = false ∧
      envW.updateConfigImpl (stW.chartPlotArr.getD 0 0) (renderUpdateArg envW reqW) =
        .ok () ∧
      envW.renderImpl (stW.chartPlotArr.getD 0 0) = .ok ()) ∧
    (SingleChartHOC.render envW stW reqW).1.dataArr = stW.dataArr.set 0 reqW.data :=
  ⟨⟨rfl, by simp [stW, reqW, isEqual], rfl, rfl⟩,
    (render_update_path_behaviour envW stW reqW 0 rfl
      (by simp [stW, reqW, isEqual]) rfl rfl).1⟩

/-- Witness for C5: rendering an already-registered target leaves the
target array unchanged. -/
theorem registry_single_entry_invariant_witness :
    stW.domArr.findIdx? (fun item => item == reqW.dom) = some 0 ∧
    (SingleChartHOC.render envW stW reqW).1.domArr = stW.domArr :=
  ⟨rfl, registry_single_entry_invariant.2.1 envW stW reqW 0 rfl⟩

/-- Witness for C6: a create-path render never calls the state
manager. -/
theorem stateManagerFunc_invocation_timing_witness :
    (envW.hasStateManagerFunc = true ∧
      HOCState.init.domArr.findIdx? (fun item => item == req1W.dom) = none) ∧
    (SingleChartHOC.render envW HOCState.init req1W).2.1.countP isStateManagerEvent = 0 :=
  ⟨⟨rfl, rfl⟩, (stateManagerFunc_invocation_timing envW HOCState.init req1W rfl).1 rfl⟩

/-- Witness for C7: updating target 3 leaves target 4's stored data
unchanged. -/
theorem render_independent_targets_witness :
    (st2W.aligned ∧ (4 : Nat) ≠ reqW.dom ∧
      st2W.domArr.findIdx? (fun item => item == 4) = some 1) ∧
    (SingleChartHOC.render envW st2W reqW).1.dataArr.getD 1 .null =
      st2W.dataArr.getD 1 .null :=
  ⟨⟨⟨rfl, rfl⟩, by decide, rfl⟩,
    (render_independent_targets envW st2W reqW 1 4 ⟨rfl, rfl⟩ (by decide) rfl).1⟩

/-- Witness for C8: a throwing `updateConfig` still leaves the new data
stored. -/
theorem render_update_not_atomic_witness :
    (stW.domArr.findIdx? (fun item => item == reqW.dom) = some 0 ∧
      isEqual (stW.dataArr.getD 0 .null) reqW.data = false ∧
      envE.updateConfigImpl (stW.chartPlotArr.getD 0 0) (renderUpdateArg envE reqW) =
        .error ()) ∧
    (SingleChartHOC.render envE stW reqW).1.dataArr = stW.dataArr.set 0 reqW.data :=
  ⟨⟨rfl, by simp [stW, reqW, isEqual], rfl⟩,
    ((render_update_not_atomic envE stW reqW 0 rfl (by simp [stW, reqW, isEqual])).1
      () rfl).2⟩

/-- Witness for C9: a throwing create function leaves the empty
registry empty. -/
theorem render_create_failure_leaves_registry_unchanged_witness :
    (HOCState.init.domArr.findIdx? (fun item => item == req1W.dom) = none ∧
      envE.getDom req1W.dom req1W.data req1W.config req1W.formatConfig = .error () ∧
      req1W.dom = req1W.dom) ∧
    SingleChartHOC.render envE HOCState.init req1W =
      (HOCState.init, [.createCall req1W.dom req1W.data req1W.config], .error ()) :=
  ⟨⟨rfl, rfl, rfl⟩,
    (render_create_failure_leaves_registry_unchanged envE HOCState.init req1W req1W ()
      rfl rfl rfl).1⟩

/-!
Mutation model for C10.  `mergeConfig` is re-run over an explicit heap
(`List HVal`, address = index, allocation = append) so that "does not
mutate its arguments" and "returns a newly allocated record" become
statable.  Primitives are stored in cells like objects; string index
spreading is not replayed here (JavaScript strings are primitives with
no heap identity).  The merged object is allocated once with its final
fields rather than allocated empty and mutated in place; the observable
heap footprint (old cells untouched, one fresh record) is the same.
-/

/-- Heap cell: a value whose structured components are addresses. -/
inductive HVal where
  | hnull
  | hbool (b : Bool)
  | hnum (n : Int)
  | hstr (s : String)
  | harr (elems : List Nat)
  | hobj (fields : List (String × Nat))

abbrev Heap := List HVal

/-- Address read. -/
def heapGet (h : Heap) (a : Nat) : Option HVal := h.get? a

/-- First-match lookup in address-valued fields. -/
def lookupN : List (String × Nat) → String → Option Nat
  | [], _ => none
  | (k, v) :: fs, key => if k == key then some v else lookupN fs key

def truthyH : HVal → Bool
  | .hnull => false
  | .hbool b => b
  | .hnum n => n != 0
  | .hstr s => s != ""
  | .harr _ => true
  | .hobj _ => true

def isRecordH : HVal → Bool
  | .hobj _ => true
  | _ => false

/-- Index pairs for array cells. -/
def idxPairsN (start : Nat) : List Nat → List (String × Nat)
  | [] => []
  | x :: xs => (toString start, x) :: idxPairsN (start + 1) xs

/-- Own enumerable properties of a cell, as addresses. -/
def ownEnumH : HVal → List (String × Nat)
  | .hobj fs => fs
  | .harr xs => idxPairsN 0 xs
  | _ => []

/-- `Object.assign` on address-valued field lists. -/
def assignFieldsH (base extra : List (String × Nat)) : List (String × Nat) :=
  base.map (fun kv => (kv.1, (lookupN extra kv.1).getD kv.2)) ++
    extra.filter (fun kv => (lookupN base kv.1).isNone)

/-- Property read through the heap. -/
def jsGetH (h : Heap) (a : Nat) (key : String) : Option Nat :=
  match heapGet h a with
  | some v => lookupN (ownEnumH v) key
  | none => none

/-- Truthiness of the cell behind an optional address (an absent
property is falsy). -/
def truthyAddr (h : Heap) : Option Nat → Bool
  | some a => match heapGet h a with
    | some v => truthyH v
    | none => false
  | none => false

/-- Whether the cell behind an address is a non-array record. -/
def isRecordAddr (h : Heap) (a : Nat) : Bool :=
  match heapGet h a with
  | some v => isRecordH v
  | none => false

mutual

/-- `mergeConfig` replayed over the heap: enumerate both arguments,
assign, re-merge eligible keys, then allocate the resulting record.
Fuel bounds the recursion through the heap. -/
def mergeConfigH (fuel : Nat) (h : Heap) (o t : Nat) : Option (Heap × Nat) :=
  match fuel with
  | 0 => none
  | fuel + 1 =>
    let oEnum := ((heapGet h o).map ownEnumH).getD []
    let tEnum := ((heapGet h t).map ownEnumH).getD []
    match mergeFieldsH fuel h o t (assignFieldsH oEnum tEnum) with
    | some (h1, fields) => some (h1 ++ [.hobj fields], h1.length)
    | none => none
termination_by (fuel, 0)

/-- The per-key pass of `mergeConfigH`, threading the heap. -/
def mergeFieldsH (fuel : Nat) (h : Heap) (o t : Nat) :
    List (String × Nat) → Option (Heap × List (String × Nat))
  | [] => some (h, [])
  | (k, a) :: rest =>
    match jsGetH h o k, jsGetH h t k with
    | some oa, some ta =>
      if truthyAddr h (some oa) && truthyAddr h (some ta) && isRecordAddr h ta then
        match mergeConfigH fuel h oa ta with
        | some (h1, r) =>
          match mergeFieldsH fuel h1 o t rest with
          | some (h2, fields) => some (h2, (k, r) :: fields)
          | none => none
        | none => none
      else
        match mergeFieldsH fuel h o t rest with
        | some (h2, fields) => some (h2, (k, a) :: fields)
        | none => none
    | _, _ =>
      match mergeFieldsH fuel h o t rest with
      | some (h2, fields) => some (h2, (k, a) :: fields)
      | none => none
termination_by l => (fuel, l.length + 1)

end

mutual

/-- Reads the value graph rooted at an address back into `JVal`. -/
def readbackH (fuel : Nat) (h : Heap) (a : Nat) : Option JVal :=
  match fuel with
  | 0 => none
  | fuel + 1 =>
    match heapGet h a with
    | none => none
    | some .hnull => some .null
    | some (.hbool b) => some (.bool b)
    | some (.hnum n) => some (.num n)
    | some (.hstr s) => some (.str s)
    | some (.harr xs) =>
      match readbackListH fuel h xs with
      | some vs => some (.arr vs)
      | none => none
    | some (.hobj fs) =>
      match readbackFieldsH fuel h fs with
      | some gs => some (.obj gs)
      | none => none
termination_by (fuel, 0)

def readbackListH (fuel : Nat) (h : Heap) : List Nat → Option (List JVal)
  | [] => some []
  | a :: as =>
    match readbackH fuel h a, readbackListH fuel h as with
    | some v, some vs => some (v :: vs)
    | _, _ => none
termination_by l => (fuel, l.length + 1)

def readbackFieldsH (fuel : Nat) (h : Heap) :
    List (String × Nat) → Option (List (String × JVal))
  | [] => some []
  | (k, a) :: fs =>
    match readbackH fuel h a, readbackFieldsH fuel h fs with
    | some v, some vs => some ((k, v) :: vs)
    | _, _ => none
termination_by l => (fuel, l.length + 1)

end

theorem heapGet_agree {h h2 : Heap} (hp : h <+: h2) {a : Nat} (ha : a < h.length) :
    heapGet h2 a = heapGet h a := by
  obtain ⟨tl, rfl⟩ := hp
  exact List.get?_append ha

theorem mergeFieldsH_extends_of (fuel : Nat)
    (hc : ∀ h o t h2 r, mergeConfigH fuel h o t = some (h2, r) → h <+: h2) :
    ∀ (l : List (String × Nat)) (h : Heap) (o t : Nat) (h2 : Heap)
      (fs : List (String × Nat)),
      mergeFieldsH fuel h o t l = some (h2, fs) → h <+: h2 := by
  intro l
  induction l with
  | nil =>
    intro h o t h2 fs hm
    rw [mergeFieldsH] at hm
    injection hm with hm'
    injection hm' with e1 e2
    exact e1 ▸ List.prefix_refl h
  | cons ka rest ih =>
    intro h o t h2 fs hm
    obtain ⟨k, a⟩ := ka
    rw [mergeFieldsH] at hm
    split at hm
    all_goals try split at hm
    all_goals try split at hm
    all_goals try split at hm
    all_goals try exact Option.noConfusion hm
    all_goals simp only [Option.some.injEq, Prod.mk.injEq] at hm
    all_goals obtain ⟨e1, e2⟩ := hm
    all_goals subst e1
    all_goals first
      | exact (hc _ _ _ _ _ (by assumption)).trans (ih _ _ _ _ _ (by assumption))
      | exact ih _ _ _ _ _ (by assumption)

theorem mergeConfigH_extends :
    ∀ (fuel : Nat) (h : Heap) (o t : Nat) (h2 : Heap) (r : Nat),
      mergeConfigH fuel h o t = some (h2, r) →
      h <+: h2 ∧ h.length ≤ r ∧ r < h2.length := by
  intro fuel
  induction fuel with
  | zero =>
    intro h o t h2 r hm
    rw [mergeConfigH] at hm
    exact absurd hm (by simp)
  | succ fuel ih =>
    intro h o t h2 r hm
    rw [mergeConfigH] at hm
    split at hm
    · rename_i h1 fields hmf
      injection hm with hm'
      injection hm' with e1 e2
      subst e1
      subst e2
      have hpre : h <+: h1 :=
        mergeFieldsH_extends_of fuel (fun h o t h2 r hmc => (ih h o t h2 r hmc).1)
          _ _ _ _ _ _ hmf
      refine ⟨hpre.trans ⟨[.hobj fields], rfl⟩, hpre.length_le, ?_⟩
      simp
    · exact absurd hm (by simp)

theorem heapGet_lt_length {h : Heap} {a : Nat} {v : HVal}
    (hg : heapGet h a = some v) : a < h.length := by
  rcases List.get?_eq_some.mp hg with ⟨hlt, _⟩
  exact hlt

theorem readbackListH_mono_of (fuel : Nat) (h h2 : Heap)
    (he : ∀ a v, readbackH fuel h a = some v → readbackH fuel h2 a = some v) :
    ∀ l vs, readbackListH fuel h l = some vs → readbackListH fuel h2 l = some vs := by
  intro l
  induction l with
  | nil =>
    intro vs hv
    rw [readbackListH] at hv ⊢
    exact hv
  | cons a as ih =>
    intro vs hv
    rw [readbackListH] at hv ⊢
    split at hv
    · rename_i v vs' hv1 hv2
      rw [he a v hv1, ih vs' hv2]
      exact hv
    · exact absurd hv (Option.noConfusion)

theorem readbackFieldsH_mono_of (fuel : Nat) (h h2 : Heap)
    (he : ∀ a v, readbackH fuel h a = some v → readbackH fuel h2 a = some v) :
    ∀ fs gs, readbackFieldsH fuel h fs = some gs →
      readbackFieldsH fuel h2 fs = some gs := by
  intro fs
  induction fs with
  | nil =>
    intro gs hv
    rw [readbackFieldsH] at hv ⊢
    exact hv
  | cons ka rest ih =>
    intro gs hv
    obtain ⟨k, a⟩ := ka
    rw [readbackFieldsH] at hv ⊢
    split at hv
    · rename_i v vs' hv1 hv2
      rw [he a v hv1, ih vs' hv2]
      exact hv
    · exact absurd hv (Option.noConfusion)

theorem readbackH_mono :
    ∀ (fuel : Nat) (h h2 : Heap), h <+: h2 →
      ∀ a v, readbackH fuel h a = some v → readbackH fuel h2 a = some v := by
  intro fuel
  induction fuel with
  | zero =>
    intro h h2 _ a v hv
    rw [readbackH] at hv
    exact absurd hv (by simp)
  | succ fuel ih =>
    intro h h2 hp a v hv
    cases hg : heapGet h a with
    | none =>
      simp only [readbackH, hg] at hv
      exact absurd hv (by simp)
    | some cell =>
      have hg2 : heapGet h2 a = some cell :=
        (heapGet_agree hp (heapGet_lt_length hg)).trans hg
      cases cell with
      | hnull =>
        simp only [readbackH, hg] at hv
        simp only [readbackH, hg2]
        exact hv
      | hbool b =>
        simp only [readbackH, hg] at hv
        simp only [readbackH, hg2]
        exact hv
      | hnum n =>
        simp only [readbackH, hg] at hv
        simp only [readbackH, hg2]
        exact hv
      | hstr s =>
        simp only [readbackH, hg] at hv
        simp only [readbackH, hg2]
        exact hv
      | harr xs =>
        simp only [readbackH, hg] at hv
        simp only [readbackH, hg2]
        cases hls : readbackListH fuel h xs with
        | none => rw [hls] at hv; exact absurd hv (by simp)
        | some vs =>
          rw [hls] at hv
          rw [readbackListH_mono_of fuel h h2 (ih h h2 hp) xs vs hls]
          exact hv
      | hobj fs =>
        simp only [readbackH, hg] at hv
        simp only [readbackH, hg2]
        cases hls : readbackFieldsH fuel h fs with
        | none => rw [hls] at hv; exact absurd hv (by simp)
        | some gs =>
          rw [hls] at hv
          rw [readbackFieldsH_mono_of fuel h h2 (ih h h2 hp) fs gs hls]
          exact hv

/-- C10: `mergeConfig`, replayed over an explicit heap, never writes an
existing cell (so neither argument is mutated at any depth), returns a
record allocated at a fresh address, and both arguments read back to
exactly the values they held before the call. -/
theorem mergeConfig_no_mutation :
    ∀ (fuel : Nat) (h : Heap) (o t : Nat) (h2 : Heap) (r : Nat),
      mergeConfigH fuel h o t = some (h2, r) →
      (∀ a, a < h.length → heapGet h2 a = heapGet h a) ∧
      h.length ≤ r ∧ r < h2.length ∧
      (∀ rfuel v, readbackH rfuel h o = some v → readbackH rfuel h2 o = some v) ∧
      (∀ rfuel v, readbackH rfuel h t = some v → readbackH rfuel h2 t = some v) := by
  intro fuel h o t h2 r hm
  obtain ⟨hp, hlen, hfresh⟩ := mergeConfigH_extends fuel h o t h2 r hm
  exact ⟨fun a ha => heapGet_agree hp ha, hlen, hfresh,
    fun rfuel v hv => readbackH_mono rfuel h h2 hp o v hv,
    fun rfuel v hv => readbackH_mono rfuel h h2 hp t v hv⟩

/-- A concrete heap: cells 2 and 3 are records sharing scalar cells 0
and 1 as field values. -/
def heapW : Heap := [.hnum 1, .hnum 2, .hobj [("a", 0)], .hobj [("a", 1)]]

/-- Witness for C10: merging the records at addresses 2 and 3 only
appends a fresh record cell at address 4. -/
theorem mergeConfig_no_mutation_witness :
    mergeConfigH 2 heapW 2 3 = some (heapW ++ [.hobj [("a", 1)]], 4) ∧
    heapW.length ≤ 4 ∧ 4 < (heapW ++ [HVal.hobj [("a", 1)]]).length :=
  ⟨by simp [heapW, mergeConfigH, mergeFieldsH, assignFieldsH, ownEnumH, jsGetH, heapGet,
      lookupN, truthyAddr, truthyH, isRecordAddr, isRecordH],
    (mergeConfig_no_mutation 2 heapW 2 3 (heapW ++ [.hobj [("a", 1)]]) 4
      (by simp [heapW, mergeConfigH, mergeFieldsH, assignFieldsH, ownEnumH, jsGetH,
        heapGet, lookupN, truthyAddr, truthyH, isRecordAddr, isRecordH])).2.1,
    (mergeConfig_no_mutation 2 heapW 2 3 (heapW ++ [.hobj [("a", 1)]]) 4
      (by simp [heapW, mergeConfigH, mergeFieldsH, assignFieldsH, ownEnumH, jsGetH,
        heapGet, lookupN, truthyAddr, truthyH, isRecordAddr, isRecordH])).2.2.1⟩
